import Mathlib

/-!
Verification of the aspine-dev in-memory key-value cache against its
natural-language specification.

The repository has two reference implementations of the cache engine:

* `src/poc/async_ver/pyredis_async.py` — class `CacheEngine` (an asyncio
  store with a min-heap of expiration records) together with
  `CommandParser.parse` and the connection handler `handle_client`;
* `src/poc/simple_ver/pyredis_lite.py` — class `PyRedisLite` (a threaded
  store with a per-key `expirations` dict) and its own `handle_client`.

This file gives a shallow embedding of both.  Conventions:

* wall-clock time (Python `time.time()`) is modelled as a rational number
  passed explicitly as a `now` argument to every time-dependent operation;
* Python dicts are modelled as association lists over `String` keys
  (`alookup` / `aput` / `adel` below) — lookups find the first matching
  entry, `aput` replaces any existing binding, `adel` removes all
  bindings of a key, so on duplicate-free lists these agree with dicts;
* the `heapq` min-heap of `(expires_at, key)` pairs is modelled as a list
  kept sorted in the tuple order, so that the list head is the heap
  minimum: `heappush` is ordered insertion and popping is taking the tail;
* Python exceptions are modelled with `Except`; where the source mutates
  state before raising, the operation returns the mutated state next to
  the `.error` result;
* Python `str(int)` and `int(str)` are modelled by `pyStr` / `pyParseInt`
  (decimal digits with an optional sign and surrounding whitespace;
  CPython's underscore digit grouping is not modelled);
* file I/O for `save`/`load` is modelled by a `Snapshot` of two pickle
  frames, each of which can independently fail to deserialize.
-/

/-- Association-list lookup, modelling Python `dict.get` / `in`. -/
def alookup {α : Type} : List (String × α) → String → Option α
  | [], _ => none
  | (k, v) :: rest, key => if k = key then some v else alookup rest key

/-- Association-list update, modelling Python `d[key] = v`. -/
def aput {α : Type} (d : List (String × α)) (key : String) (v : α) : List (String × α) :=
  (key, v) :: d.filter (fun p => p.1 ≠ key)

/-- Association-list removal, modelling Python `del d[key]`. -/
def adel {α : Type} (d : List (String × α)) (key : String) : List (String × α) :=
  d.filter (fun p => p.1 ≠ key)

/-- Floor of a rational, computed with integer floor division. -/
def ratFloor (q : ℚ) : Int := Int.fdiv q.num (q.den : Int)

/-- Python `int(float)`: truncation toward zero. -/
def truncQ (q : ℚ) : Int := if q < 0 then -(ratFloor (-q)) else ratFloor q

/-- The decimal digit character for `d < 10`. -/
def digitChar (d : Nat) : Char := Char.ofNat (48 + d)

/-- Fuel-driven most-significant-first decimal digits of a natural number. -/
def natDigitsFuel : Nat → Nat → List Char
  | 0, _ => []
  | fuel + 1, n =>
    if n < 10 then [digitChar n] else natDigitsFuel fuel (n / 10) ++ [digitChar (n % 10)]

/-- Decimal digits of a natural number (`n + 1` fuel always suffices). -/
def natDigits (n : Nat) : List Char := natDigitsFuel (n + 1) n

/-- Python `str(i)` for an integer `i`. -/
def pyStr (i : Int) : String :=
  if i < 0 then String.mk ('-' :: natDigits i.natAbs) else String.mk (natDigits i.toNat)

/-- Numeric value of a decimal digit character. -/
def digitVal (c : Char) : Nat := c.toNat - 48

/-- Value of a nonempty all-digit character list, else `none`. -/
def digitsToNat (cs : List Char) : Option Nat :=
  if cs ≠ [] ∧ cs.all Char.isDigit then
    some (cs.foldl (fun a c => a * 10 + digitVal c) 0)
  else none

/-- Drop trailing whitespace characters. -/
def dropTrail (cs : List Char) : List Char := (cs.reverse.dropWhile Char.isWhitespace).reverse

/-- Python `str.strip()` on the character list of a string. -/
def pyStripChars (cs : List Char) : List Char := dropTrail (cs.dropWhile Char.isWhitespace)

/-- Python `int(s)` for a string `s`: optional surrounding whitespace, an
optional sign, then decimal digits; `none` models the `ValueError`. -/
def pyParseInt (s : String) : Option Int :=
  match pyStripChars s.toList with
  | [] => none
  | c :: rest =>
    if c = '-' then (digitsToNat rest).map (fun n => -(n : Int))
    else if c = '+' then (digitsToNat rest).map (fun n => (n : Int))
    else (digitsToNat (c :: rest)).map (fun n => (n : Int))

/-- Python `str.split()` with no separator: split on whitespace runs,
dropping empty tokens.  The second argument accumulates the current token
in reverse. -/
def splitWSAux : List Char → List Char → List String
  | [], acc => if acc = [] then [] else [String.mk acc.reverse]
  | c :: rest, acc =>
    if c.isWhitespace then
      (if acc = [] then splitWSAux rest [] else String.mk acc.reverse :: splitWSAux rest [])
    else splitWSAux rest (c :: acc)

/-- Python `s.split()` (whitespace tokenization; also absorbs the
preceding `.strip()` the sources apply, which `split()` makes redundant). -/
def pySplitWS (s : String) : List String := splitWSAux s.toList []

/-- Python `str.upper()` (ASCII). -/
def pyUpper (s : String) : String := String.mk (s.toList.map Char.toUpper)

/-- A Python value passed as the optional expiry argument: the threaded
server passes `None`, an `int`, or the raw `str` token from the wire. -/
inductive PyEx where
  | noneVal : PyEx
  | intVal (n : Int) : PyEx
  | strVal (s : String) : PyEx
deriving DecidableEq

/-- Python truthiness of the expiry argument (`if ex:`): `None` and `0`
are falsy, a string is truthy iff nonempty. -/
def pyTruthy : PyEx → Bool
  | .noneVal => false
  | .intVal n => n != 0
  | .strVal s => s != ""

/-- Python `int(ex)` on the expiry argument. -/
def pyExToInt : PyEx → Except String Int
  | .noneVal => .error "int() argument must not be None"
  | .intVal n => .ok n
  | .strVal s =>
    match pyParseInt s with
    | some n => .ok n
    | none => .error ("invalid literal for int() with base 10: \x27" ++ s ++ "\x27")

/-- Ordered insertion into the expiration heap, modelling
`heapq.heappush(self._expire_heap, (expire_at, key))` on the sorted-list
view of the heap (tuples compare lexicographically). -/
def heappush (x : ℚ × String) : List (ℚ × String) → List (ℚ × String)
  | [] => [x]
  | y :: rest =>
    if x.1 < y.1 then x :: y :: rest
    else if x.1 = y.1 ∧ x.2 < y.2 then x :: y :: rest
    else y :: heappush x rest

/-- `CacheEngine._remove_expired_keys` from `pyredis_async.py`, acting on
the heap and the data dict: while the heap minimum has
`expires_at < now`, pop it and delete its key from the data dict if
present.  Returns the remaining heap and the surviving data dict. -/
def removeExpiredKeys (now : ℚ) : List (ℚ × String) → List (String × String) →
    List (ℚ × String) × List (String × String)
  | [], d => ([], d)
  | (t, k) :: rest, d =>
    if t < now then
      removeExpiredKeys now rest (if (alookup d k).isSome then adel d k else d)
    else ((t, k) :: rest, d)

/-- State of `CacheEngine` from `pyredis_async.py`: `_data`,
`_expire_heap` (sorted-list view) and `_start_time`. -/
structure CacheEngine where
  data : List (String × String)
  heap : List (ℚ × String)
  startTime : ℚ
deriving DecidableEq

/-- Run the expiry drain on an engine state. -/
def CacheEngine.sweepNow (e : CacheEngine) (now : ℚ) : CacheEngine :=
  { e with heap := (removeExpiredKeys now e.heap e.data).1,
           data := (removeExpiredKeys now e.heap e.data).2 }

/-- `CacheEngine.set`: store the value; only a truthy `expire` (not `None`
and not `0`) enqueues an expiration record at `now + expire`. -/
def CacheEngine.set (e : CacheEngine) (now : ℚ) (key value : String)
    (expire : Option Int) : CacheEngine :=
  match expire with
  | some n =>
    if n ≠ 0 then
      { e with data := aput e.data key value, heap := heappush (now + (n : ℚ), key) e.heap }
    else { e with data := aput e.data key value }
  | none => { e with data := aput e.data key value }

/-- `CacheEngine.get`: lazy sweep, then dict lookup. -/
def CacheEngine.get (e : CacheEngine) (now : ℚ) (key : String) :
    Option String × CacheEngine :=
  let e2 := e.sweepNow now
  (alookup e2.data key, e2)

/-- `CacheEngine.delete`: remove the key if present, filter its records
out of the heap, return the removal count. -/
def CacheEngine.delete (e : CacheEngine) (key : String) : Int × CacheEngine :=
  if (alookup e.data key).isSome then
    (1, { e with data := adel e.data key, heap := e.heap.filter (fun p => p.2 ≠ key) })
  else (0, e)

/-- `CacheEngine.ttl`: `-2` if the key is absent from `_data`; otherwise
scan `_expire_heap` for the first record of the key and return
`int(expire_at - time.time())`; `-1` if no record mentions the key.
Note the scan performs no expiry check. -/
def CacheEngine.ttl (e : CacheEngine) (now : ℚ) (key : String) : Int :=
  if (alookup e.data key).isSome then
    match e.heap.find? (fun p => p.2 == key) with
    | some p => truncQ (p.1 - now)
    | none => -1
  else -2

/-- `CacheEngine.incr`: `int(self._data.get(key, 0))`, add one, store the
decimal string.  The `ValueError` is raised before any mutation, so the
error branch returns the unchanged state. -/
def CacheEngine.incr (e : CacheEngine) (key : String) : Except String Int × CacheEngine :=
  match (match alookup e.data key with | none => some 0 | some v => pyParseInt v) with
  | some n => (.ok (n + 1), { e with data := aput e.data key (pyStr (n + 1)) })
  | none => (.error "value is not an integer or out of range", e)

/-- `CacheEngine.decr`: like `incr` with subtraction. -/
def CacheEngine.decr (e : CacheEngine) (key : String) : Except String Int × CacheEngine :=
  match (match alookup e.data key with | none => some 0 | some v => pyParseInt v) with
  | some n => (.ok (n - 1), { e with data := aput e.data key (pyStr (n - 1)) })
  | none => (.error "value is not an integer or out of range", e)

/-- A persisted snapshot: the two pickle frames written by
`CacheEngine.save` (`pickle.dump(self._data, f)` then
`pickle.dump(self._expire_heap, f)`).  When loading, each frame can
independently fail to deserialize, modelling a corrupt or truncated
file. -/
structure Snapshot where
  dataFrame : Except String (List (String × String))
  heapFrame : Except String (List (ℚ × String))

/-- `CacheEngine.save`: serialize `_data` and `_expire_heap` as the two
pickle frames.  The temp-file-and-rename dance means the file at the
target path is always a complete snapshot value, which is what `Snapshot`
captures; the filesystem itself is not modelled. -/
def CacheEngine.save (e : CacheEngine) : Snapshot := ⟨.ok e.data, .ok e.heap⟩

/-- `CacheEngine.load`: a missing file (`file = none`) returns with no
change; otherwise `self._data = pickle.load(f)` runs first and
`self._expire_heap = pickle.load(f)` second, so a failure of the second
frame leaves the new data dict installed next to the old heap.  The
result pairs the propagated error (if any) with the store state after
the call. -/
def CacheEngine.load (e : CacheEngine) (file : Option Snapshot) :
    Option String × CacheEngine :=
  match file with
  | none => (none, e)
  | some snap =>
    match snap.dataFrame with
    | .error m => (some m, e)
    | .ok d =>
      match snap.heapFrame with
      | .error m => (some m, { e with data := d })
      | .ok hp => (none, { e with data := d, heap := hp })

/-- State of `PyRedisLite` from `pyredis_lite.py`: the `data` dict and
the per-key `expirations` dict of absolute expiry times. -/
structure PyRedisLite where
  data : List (String × String)
  expirations : List (String × ℚ)
deriving DecidableEq

/-- `PyRedisLite.set`: store the value first; a truthy `ex` then sets
`expirations[key] = now + int(ex)`.  Since the data dict is assigned
before `int(ex)` runs, a `ValueError` from `int(ex)` leaves the value
stored: the error branch carries that mutated state. -/
def PyRedisLite.set (st : PyRedisLite) (now : ℚ) (key value : String) (ex : PyEx) :
    Except String String × PyRedisLite :=
  let d := aput st.data key value
  if pyTruthy ex then
    match pyExToInt ex with
    | .ok n => (.ok "OK", ⟨d, aput st.expirations key (now + (n : ℚ))⟩)
    | .error m => (.error m, ⟨d, st.expirations⟩)
  else (.ok "OK", ⟨d, st.expirations⟩)

/-- `PyRedisLite.get`: a key that is present but past its expiration is
deleted from both dicts and reported as `(nil)`. -/
def PyRedisLite.get (st : PyRedisLite) (now : ℚ) (key : String) : String × PyRedisLite :=
  match alookup st.data key with
  | some v =>
    match alookup st.expirations key with
    | some t =>
      if now > t then ("(nil)", ⟨adel st.data key, adel st.expirations key⟩) else (v, st)
    | none => (v, st)
  | none => ("(nil)", st)

/-- `PyRedisLite.delete`: remove the key from `data` and, if present,
from `expirations`; reply with the removal count as a string. -/
def PyRedisLite.delete (st : PyRedisLite) (key : String) : String × PyRedisLite :=
  match alookup st.data key with
  | some _ =>
    ("1", ⟨adel st.data key,
           if (alookup st.expirations key).isSome then adel st.expirations key
           else st.expirations⟩)
  | none => ("0", st)

/-- `PyRedisLite.exists` (named `existsCmd` here because `exists` is a
Lean keyword): like `get` but replying `"1"`/`"0"`. -/
def PyRedisLite.existsCmd (st : PyRedisLite) (now : ℚ) (key : String) :
    String × PyRedisLite :=
  match alookup st.data key with
  | some _ =>
    match alookup st.expirations key with
    | some t =>
      if now > t then ("0", ⟨adel st.data key, adel st.expirations key⟩) else ("1", st)
    | none => ("1", st)
  | none => ("0", st)

/-- `PyRedisLite.ttl`: `-2` when absent (or when expired, after deleting
the entry), `-1` when present with no expiration, else
`str(int(expirations[key] - time.time()))`. -/
def PyRedisLite.ttl (st : PyRedisLite) (now : ℚ) (key : String) : String × PyRedisLite :=
  match alookup st.data key with
  | some _ =>
    match alookup st.expirations key with
    | some t =>
      if now > t then ("-2", ⟨adel st.data key, adel st.expirations key⟩)
      else (pyStr (truncQ (t - now)), st)
    | none => ("-1", st)
  | none => ("-2", st)

/-- `PyRedisLite.incr`: a present value is parsed, incremented and stored
as `str(int(v) + 1)`; a `ValueError` yields an error reply string with
no mutation; an absent key is initialized directly to `"1"`. -/
def PyRedisLite.incr (st : PyRedisLite) (key : String) : String × PyRedisLite :=
  match alookup st.data key with
  | some v =>
    match pyParseInt v with
    | some n => (pyStr (n + 1), ⟨aput st.data key (pyStr (n + 1)), st.expirations⟩)
    | none => ("ERROR: Value is not an integer", st)
  | none => ("1", ⟨aput st.data key "1", st.expirations⟩)

/-- `PyRedisLite.flushall`: clear both dicts. -/
def PyRedisLite.flushall (_st : PyRedisLite) : String × PyRedisLite :=
  ("OK", ⟨[], []⟩)

/-- Delete a key from the data dict only if present, mirroring the
`if key in self.data: del self.data[key]` guard of `active_expire`. -/
def delIfPresent (d : List (String × String)) (key : String) : List (String × String) :=
  if (alookup d key).isSome then adel d key else d

/-- One iteration of the body of `PyRedisLite.active_expire`: collect the
keys whose expiration has passed, delete each from `data` if present and
from `expirations` unconditionally. -/
def PyRedisLite.activeExpireOnce (st : PyRedisLite) (now : ℚ) : PyRedisLite :=
  let keysToDelete := (st.expirations.filter (fun p => now > p.2)).map Prod.fst
  ⟨keysToDelete.foldl delIfPresent st.data, keysToDelete.foldl adel st.expirations⟩

/-- The command execution inside the `try` of `CommandParser.parse` from
`pyredis_async.py`, for a given (already upper-cased) command name.  An
`.error` models an exception escaping a cache call; every in-model raiser
(`incr`/`decr`) raises before mutating, so the store state at the raise
is the input state. -/
def CommandParser.dispatch (e : CacheEngine) (now : ℚ) (command : String)
    (args : List String) : Except String (String × CacheEngine) :=
  if command = "SET" then
    match args with
    | key :: value :: rest =>
      match rest with
      | a2 :: a3 :: _ =>
        if pyUpper a2 = "EX" then
          match pyParseInt a3 with
          | some n => .ok ("OK\r\n", e.set now key value (some n))
          | none => .ok ("ERROR: Invalid expire value\r\n", e)
        else .ok ("OK\r\n", e.set now key value none)
      | _ => .ok ("OK\r\n", e.set now key value none)
    | _ => .ok ("ERROR: Not enough arguments for SET\r\n", e)
  else if command = "GET" then
    match args with
    | [key] =>
      let r := e.get now key
      match r.1 with
      | none => .ok ("(nil)\r\n", r.2)
      | some v => .ok (v ++ "\r\n", r.2)
    | _ => .ok ("ERROR: Incorrect number of arguments for GET\r\n", e)
  else if command = "DEL" then
    match args with
    | [key] =>
      let r := e.delete key
      .ok (":" ++ pyStr r.1 ++ "\r\n", r.2)
    | _ => .ok ("ERROR: Incorrect number of arguments for DEL\r\n", e)
  else if command = "TTL" then
    match args with
    | [key] => .ok (":" ++ pyStr (e.ttl now key) ++ "\r\n", e)
    | _ => .ok ("ERROR: Incorrect number of arguments for TTL\r\n", e)
  else if command = "INCR" then
    match args with
    | [key] =>
      match e.incr key with
      | (.ok n, e2) => .ok (":" ++ pyStr n ++ "\r\n", e2)
      | (.error m, _) => .error m
    | _ => .ok ("ERROR: Incorrect number of arguments for INCR\r\n", e)
  else if command = "DECR" then
    match args with
    | [key] =>
      match e.decr key with
      | (.ok n, e2) => .ok (":" ++ pyStr n ++ "\r\n", e2)
      | (.error m, _) => .error m
    | _ => .ok ("ERROR: Incorrect number of arguments for DECR\r\n", e)
  else if command = "SAVE" then
    .ok ("OK\r\n", e)
  else if command = "INFO" then
    let keys := pyStr (e.data.length : Int)
    let mem := pyStr (((e.data.map (fun p => p.1.length + p.2.length)).sum : Nat) : Int)
    let up := pyStr (truncQ (now - e.startTime))
    .ok ("keys:" ++ keys ++ "\r\nmemory_usage:" ++ mem ++ "\r\nuptime:" ++ up ++ "\r\n", e)
  else
    .ok ("ERROR: Unknown command \x27" ++ command ++ "\x27\r\n", e)

/-- `CommandParser.parse`: tokenize, dispatch under the `try`, and turn
any escaping exception into an `ERROR: <message>` reply. -/
def CommandParser.parse (e : CacheEngine) (now : ℚ) (input : String) :
    String × CacheEngine :=
  match pySplitWS input with
  | [] => ("ERROR: No command specified\r\n", e)
  | c :: args =>
    match CommandParser.dispatch e now (pyUpper c) args with
    | .ok r => r
    | .error msg => ("ERROR: " ++ msg ++ "\r\n", e)

/-- One loop iteration of `handle_client` in `pyredis_async.py`: an empty
read closes the connection, otherwise the reply from
`CommandParser.parse` is written and the loop continues.  The `Bool`
records whether the connection stays open. -/
def asyncHandleStep (e : CacheEngine) (now : ℚ) (input : String) :
    Option String × CacheEngine × Bool :=
  if input = "" then (none, e, false)
  else
    let r := CommandParser.parse e now input
    (some r.1, r.2, true)

/-- The `elif` command chain of `handle_client` in `pyredis_lite.py`.
An `.error` models an exception escaping a `db` call (only `int(ex)`
inside `set` can raise there); the paired state is the store state at
the raise, which for `set` already contains the stored value. -/
def liteDispatch (st : PyRedisLite) (now : ℚ) (cmd : String) (args : List String) :
    Except String String × PyRedisLite :=
  match cmd, args with
  | "SET", [k, v] => st.set now k v PyEx.noneVal
  | "SET", [k, v, a2, a3] =>
    if pyUpper a2 = "EX" then st.set now k v (PyEx.strVal a3)
    else (.ok "ERROR: Unknown command or wrong number of arguments", st)
  | "GET", [k] => let r := st.get now k; (.ok r.1, r.2)
  | "DEL", [k] => let r := st.delete k; (.ok r.1, r.2)
  | "EXISTS", [k] => let r := st.existsCmd now k; (.ok r.1, r.2)
  | "TTL", [k] => let r := st.ttl now k; (.ok r.1, r.2)
  | "INCR", [k] => let r := st.incr k; (.ok r.1, r.2)
  | "FLUSHALL", [] => let r := st.flushall; (.ok r.1, r.2)
  | _, _ => (.ok "ERROR: Unknown command or wrong number of arguments", st)

/-- One loop iteration of `handle_client` in `pyredis_lite.py`: an empty
(or all-whitespace) line breaks out of the loop; a normal reply is sent
and the loop continues; an exception is answered with `ERROR: <message>`
and then the handler `break`s, closing the connection.  The `Bool`
records whether the connection stays open. -/
def liteHandleStep (st : PyRedisLite) (now : ℚ) (input : String) :
    Option String × PyRedisLite × Bool :=
  match pySplitWS input with
  | [] => (none, st, false)
  | c :: args =>
    match liteDispatch st now (pyUpper c) args with
    | (.ok resp, st2) => (some (resp ++ "\n"), st2, true)
    | (.error m, st2) => (some ("ERROR: " ++ m ++ "\n"), st2, false)

/-- `M` successive `incr` calls on the async engine.  Each call runs its
whole read-parse-add-write sequence inside one `async with self._lock`
block with no intervening `await`, so under any interleaving of `M`
concurrent callers the reachable final states are exactly the results of
this sequential composition. -/
def incrRun (key : String) : Nat → CacheEngine → CacheEngine
  | 0, e => e
  | m + 1, e => incrRun key m (e.incr key).2

/-- `M` successive `incr` calls on the threaded engine; each call holds
`self.lock` for its whole critical section. -/
def incrRunLite (key : String) : Nat → PyRedisLite → PyRedisLite
  | 0, st => st
  | m + 1, st => incrRunLite key m (st.incr key).2

/-- The invariant of the threaded store: every key with an expiration
entry is present in the data dict. -/
def liteInv (st : PyRedisLite) : Bool :=
  st.expirations.all (fun p => (alookup st.data p.1).isSome)

theorem alookup_adel {α : Type} (d : List (String × α)) (k q : String) :
    alookup (adel d k) q = if q = k then none else alookup d q := by
  induction d with
  | nil => simp [adel, alookup]
  | cons p rest ih =>
    simp only [adel, List.filter_cons] at ih ⊢
    by_cases hp : p.1 = k
    · by_cases hq : q = k
      · simpa [hp, hq] using ih
      · have hpq : p.1 ≠ q := fun h => hq (by rw [← h, hp])
        have hkq : k ≠ q := fun h => hq h.symm
        simpa [hp, alookup, hq, hpq, hkq] using ih
    · by_cases hq : q = k
      · have hpq : p.1 ≠ q := fun h => hp (by rw [h, hq])
        simpa [hp, alookup, hq, hpq] using ih
      · by_cases hpq : p.1 = q
        · simp [hp, alookup, hq, hpq]
        · simpa [hp, alookup, hq, hpq] using ih

theorem alookup_aput {α : Type} (d : List (String × α)) (k q : String) (v : α) :
    alookup (aput d k v) q = if q = k then some v else alookup d q := by
  show alookup ((k, v) :: adel d k) q = _
  by_cases hq : q = k
  · simp [alookup, hq]
  · have hkq : k ≠ q := fun h => hq h.symm
    simp [alookup, hkq, hq, alookup_adel]

theorem mem_adel {α : Type} (d : List (String × α)) (k : String) (p : String × α) :
    p ∈ adel d k ↔ p ∈ d ∧ p.1 ≠ k := by
  simp [adel, List.mem_filter]

theorem alookup_eq_none_forall {α : Type} (d : List (String × α)) (k : String)
    (h : alookup d k = none) : ∀ p ∈ d, p.1 ≠ k := by
  induction d with
  | nil => simp
  | cons p rest ih =>
    by_cases hp : p.1 = k
    · simp [alookup, hp] at h
    · simp only [alookup, hp, if_false] at h
      intro q hq
      rcases List.mem_cons.mp hq with rfl | hmem
      · exact hp
      · exact ih h q hmem

theorem removeExpiredKeys_alookup_of_not_mem (now : ℚ) (hp : List (ℚ × String))
    (d : List (String × String)) (k : String) (h : ∀ p ∈ hp, p.2 ≠ k) :
    alookup (removeExpiredKeys now hp d).2 k = alookup d k := by
  induction hp generalizing d with
  | nil => simp [removeExpiredKeys]
  | cons x rest ih =>
    obtain ⟨t, k2⟩ := x
    have hk2 : k2 ≠ k := h (t, k2) (by simp)
    by_cases ht : t < now
    · simp only [removeExpiredKeys, ht, if_true]
      rw [ih _ (fun p hmem => h p (by simp [hmem]))]
      by_cases hd : (alookup d k2).isSome
      · have hkk2 : ¬ (k = k2) := fun hh => hk2 hh.symm
        simp [hd, alookup_adel, hkk2]
      · simp [hd]
    · simp [removeExpiredKeys, ht]

theorem digitVal_digitChar (d : Nat) (h : d < 10) : digitVal (digitChar d) = d := by
  interval_cases d <;> decide

theorem digitChar_facts (d : Nat) (h : d < 10) :
    (digitChar d).isDigit = true ∧ (digitChar d).isWhitespace = false ∧
    digitChar d ≠ '-' ∧ digitChar d ≠ '+' := by
  interval_cases d <;> decide

theorem natDigitsFuel_eq (f1 f2 n : Nat) (h1 : n < f1) (h2 : n < f2) :
    natDigitsFuel f1 n = natDigitsFuel f2 n := by
  induction f1 generalizing f2 n with
  | zero => omega
  | succ f ih =>
    cases f2 with
    | zero => omega
    | succ g =>
      simp only [natDigitsFuel]
      by_cases hn : n < 10
      · simp [hn]
      · have hdiv : n / 10 < n := Nat.div_lt_self (by omega) (by omega)
        simp only [hn, if_false]
        rw [ih g (n / 10) (by omega) (by omega)]

theorem natDigits_eq (n : Nat) :
    natDigits n =
      if n < 10 then [digitChar n] else natDigits (n / 10) ++ [digitChar (n % 10)] := by
  show natDigitsFuel (n + 1) n = _
  simp only [natDigitsFuel]
  by_cases hn : n < 10
  · simp [hn]
  · have hdiv : n / 10 < n := Nat.div_lt_self (by omega) (by omega)
    simp only [hn, if_false, natDigits]
    rw [natDigitsFuel_eq n (n / 10 + 1) (n / 10) (by omega) (by omega)]

theorem natDigits_mem (n : Nat) : ∀ c ∈ natDigits n, ∃ d, d < 10 ∧ c = digitChar d := by
  induction n using Nat.strong_induction_on with
  | _ n ih =>
    rw [natDigits_eq]
    by_cases hn : n < 10
    · simp only [hn, if_true]
      intro c hc
      simp at hc
      exact ⟨n, hn, hc⟩
    · simp only [hn, if_false]
      intro c hc
      rcases List.mem_append.mp hc with hc1 | hc2
      · exact ih (n / 10) (Nat.div_lt_self (by omega) (by omega)) c hc1
      · simp at hc2
        exact ⟨n % 10, Nat.mod_lt n (by omega), hc2⟩

theorem natDigits_ne_nil (n : Nat) : natDigits n ≠ [] := by
  rw [natDigits_eq]
  by_cases hn : n < 10 <;> simp [hn]

theorem natDigits_foldl (n : Nat) :
    (natDigits n).foldl (fun a c => a * 10 + digitVal c) 0 = n := by
  induction n using Nat.strong_induction_on with
  | _ n ih =>
    rw [natDigits_eq]
    by_cases hn : n < 10
    · simp [hn, digitVal_digitChar n hn]
    · have hdiv : n / 10 < n := Nat.div_lt_self (by omega) (by omega)
      simp only [hn, if_false, List.foldl_append, List.foldl_cons, List.foldl_nil]
      rw [ih (n / 10) hdiv, digitVal_digitChar (n % 10) (Nat.mod_lt n (by omega))]
      omega

theorem digitsToNat_natDigits (n : Nat) : digitsToNat (natDigits n) = some n := by
  have hall : (natDigits n).all Char.isDigit = true := by
    rw [List.all_eq_true]
    intro c hc
    obtain ⟨d, hd, rfl⟩ := natDigits_mem n c hc
    exact (digitChar_facts d hd).1
  simp [digitsToNat, natDigits_ne_nil n, hall, natDigits_foldl]

theorem dropWhile_eq_self_of_not (p : Char → Bool) (l : List Char)
    (h : ∀ c ∈ l, p c = false) : l.dropWhile p = l := by
  cases l with
  | nil => rfl
  | cons c rest => simp [List.dropWhile, h c (by simp)]

theorem pyStripChars_eq_self (cs : List Char) (h : ∀ c ∈ cs, c.isWhitespace = false) :
    pyStripChars cs = cs := by
  unfold pyStripChars dropTrail
  rw [dropWhile_eq_self_of_not _ cs h]
  rw [dropWhile_eq_self_of_not _ cs.reverse (fun c hc => h c (List.mem_reverse.mp hc))]
  exact List.reverse_reverse cs

theorem pyParseInt_of_strip (s : String) (c : Char) (rest : List Char)
    (h : pyStripChars s.toList = c :: rest) :
    pyParseInt s =
      (if c = '-' then (digitsToNat rest).map (fun n => -(n : Int))
       else if c = '+' then (digitsToNat rest).map (fun n => (n : Int))
       else (digitsToNat (c :: rest)).map (fun n => (n : Int))) := by
  unfold pyParseInt
  rw [h]

theorem natDigits_not_ws (n : Nat) : ∀ c ∈ natDigits n, c.isWhitespace = false := by
  intro c hc
  obtain ⟨d, hd, rfl⟩ := natDigits_mem n c hc
  exact (digitChar_facts d hd).2.1

theorem pyParseInt_pyStr (i : Int) : pyParseInt (pyStr i) = some i := by
  by_cases hi : i < 0
  · have h1 : pyStr i = String.mk ('-' :: natDigits i.natAbs) := by simp [pyStr, hi]
    rw [h1]
    have hstrip : pyStripChars (String.mk ('-' :: natDigits i.natAbs)).toList
        = '-' :: natDigits i.natAbs := by
      apply pyStripChars_eq_self
      intro c hc
      rcases List.mem_cons.mp hc with rfl | hmem
      · decide
      · exact natDigits_not_ws _ c hmem
    rw [pyParseInt_of_strip _ '-' (natDigits i.natAbs) hstrip]
    rw [if_pos rfl, digitsToNat_natDigits]
    show some (-(i.natAbs : Int)) = some i
    congr 1
    omega
  · have h1 : pyStr i = String.mk (natDigits i.toNat) := by simp [pyStr, hi]
    rw [h1]
    obtain ⟨c, rest, hcr⟩ : ∃ c rest, natDigits i.toNat = c :: rest := by
      cases hcc : natDigits i.toNat with
      | nil => exact absurd hcc (natDigits_ne_nil _)
      | cons a b => exact ⟨a, b, rfl⟩
    obtain ⟨d, hd, hcd⟩ := natDigits_mem i.toNat c (by rw [hcr]; simp)
    have hstrip : pyStripChars (String.mk (natDigits i.toNat)).toList
        = c :: rest := by
      rw [show (String.mk (natDigits i.toNat)).toList = natDigits i.toNat from rfl]
      rw [pyStripChars_eq_self _ (natDigits_not_ws i.toNat), hcr]
    rw [pyParseInt_of_strip _ c rest hstrip]
    rw [if_neg (hcd ▸ (digitChar_facts d hd).2.2.1),
        if_neg (hcd ▸ (digitChar_facts d hd).2.2.2)]
    rw [← hcr, digitsToNat_natDigits]
    show some ((i.toNat : Int)) = some i
    congr 1
    omega

theorem asyncIncr_of_value (e : CacheEngine) (key : String) (i : Int)
    (h : alookup e.data key = some (pyStr i)) :
    e.incr key = (.ok (i + 1), { e with data := aput e.data key (pyStr (i + 1)) }) := by
  simp [CacheEngine.incr, h, pyParseInt_pyStr]

theorem liteIncr_of_value (st : PyRedisLite) (key : String) (i : Int)
    (h : alookup st.data key = some (pyStr i)) :
    st.incr key = (pyStr (i + 1), ⟨aput st.data key (pyStr (i + 1)), st.expirations⟩) := by
  simp [PyRedisLite.incr, h, pyParseInt_pyStr]

theorem incrRun_inv (key : String) (m : Nat) (e : CacheEngine) (i : Int)
    (h : alookup e.data key = some (pyStr i)) :
    alookup (incrRun key m e).data key = some (pyStr (i + m)) := by
  induction m generalizing e i with
  | zero => simpa using h
  | succ n ih =>
    simp only [incrRun]
    rw [asyncIncr_of_value e key i h]
    have hstep : alookup (aput e.data key (pyStr (i + 1))) key = some (pyStr (i + 1)) := by
      simp [alookup_aput]
    have := ih { e with data := aput e.data key (pyStr (i + 1)) } (i + 1) hstep
    have harith : i + 1 + (n : Int) = i + ((n + 1 : Nat) : Int) := by push_cast; ring
    rw [harith] at this
    exact this

theorem incrRunLite_inv (key : String) (m : Nat) (st : PyRedisLite) (i : Int)
    (h : alookup st.data key = some (pyStr i)) :
    alookup (incrRunLite key m st).data key = some (pyStr (i + m)) := by
  induction m generalizing st i with
  | zero => simpa using h
  | succ n ih =>
    simp only [incrRunLite]
    rw [liteIncr_of_value st key i h]
    have hstep : alookup (aput st.data key (pyStr (i + 1))) key = some (pyStr (i + 1)) := by
      simp [alookup_aput]
    have := ih ⟨aput st.data key (pyStr (i + 1)), st.expirations⟩ (i + 1) hstep
    have harith : i + 1 + (n : Int) = i + ((n + 1 : Nat) : Int) := by push_cast; ring
    rw [harith] at this
    exact this

theorem pyStr_one : pyStr 1 = "1" := by decide

theorem liteInv_iff (st : PyRedisLite) :
    liteInv st = true ↔ ∀ p ∈ st.expirations, (alookup st.data p.1).isSome = true := by
  simp [liteInv, List.all_eq_true]

theorem mem_aput {α : Type} (d : List (String × α)) (k : String) (v : α) (p : String × α)
    (h : p ∈ aput d k v) : p = (k, v) ∨ (p ∈ d ∧ p.1 ≠ k) := by
  rcases List.mem_cons.mp h with h | h
  · exact Or.inl h
  · right
    exact (mem_adel d k p).mp h

theorem alookup_aput_isSome {α : Type} (d : List (String × α)) (k q : String) (v : α)
    (h : (alookup d q).isSome = true ∨ q = k) :
    (alookup (aput d k v) q).isSome = true := by
  rw [alookup_aput]
  by_cases hq : q = k
  · simp [hq]
  · rcases h with h | h
    · simpa [hq] using h
    · exact absurd h hq

theorem liteInv_adel_both (st : PyRedisLite) (key : String) (h : liteInv st = true) :
    liteInv ⟨adel st.data key, adel st.expirations key⟩ = true := by
  rw [liteInv_iff] at h ⊢
  intro p hp
  obtain ⟨hmem, hne⟩ := (mem_adel _ _ _).mp hp
  rw [alookup_adel]
  simpa [hne] using h p hmem

theorem liteInv_set (st : PyRedisLite) (now : ℚ) (k v : String) (ex : PyEx)
    (h : liteInv st = true) : liteInv (st.set now k v ex).2 = true := by
  rw [liteInv_iff] at h
  unfold PyRedisLite.set
  by_cases ht : pyTruthy ex
  · cases hx : pyExToInt ex with
    | ok n =>
      simp only [ht, if_true, hx]
      rw [liteInv_iff]
      intro p hp
      rcases mem_aput _ _ _ _ hp with rfl | ⟨hmem, hne⟩
      · exact alookup_aput_isSome _ _ _ _ (Or.inr rfl)
      · exact alookup_aput_isSome _ _ _ _ (Or.inl (h p hmem))
    | error m =>
      simp only [ht, if_true, hx]
      rw [liteInv_iff]
      intro p hp
      exact alookup_aput_isSome _ _ _ _ (Or.inl (h p hp))
  · simp only [Bool.not_eq_true] at ht
    simp only [ht, Bool.false_eq_true, if_false]
    rw [liteInv_iff]
    intro p hp
    exact alookup_aput_isSome _ _ _ _ (Or.inl (h p hp))

theorem liteInv_get (st : PyRedisLite) (now : ℚ) (k : String)
    (h : liteInv st = true) : liteInv (st.get now k).2 = true := by
  unfold PyRedisLite.get
  cases hd : alookup st.data k with
  | none => simpa using h
  | some v =>
    cases he : alookup st.expirations k with
    | none => simpa using h
    | some t =>
      by_cases hn : now > t
      · simpa [hn] using liteInv_adel_both st k h
      · simpa [hn] using h

theorem liteInv_existsCmd (st : PyRedisLite) (now : ℚ) (k : String)
    (h : liteInv st = true) : liteInv (st.existsCmd now k).2 = true := by
  unfold PyRedisLite.existsCmd
  cases hd : alookup st.data k with
  | none => simpa using h
  | some v =>
    cases he : alookup st.expirations k with
    | none => simpa using h
    | some t =>
      by_cases hn : now > t
      · simpa [hn] using liteInv_adel_both st k h
      · simpa [hn] using h

theorem liteInv_ttl (st : PyRedisLite) (now : ℚ) (k : String)
    (h : liteInv st = true) : liteInv (st.ttl now k).2 = true := by
  unfold PyRedisLite.ttl
  cases hd : alookup st.data k with
  | none => simpa using h
  | some v =>
    cases he : alookup st.expirations k with
    | none => simpa using h
    | some t =>
      by_cases hn : now > t
      · simpa [hn] using liteInv_adel_both st k h
      · simpa [hn] using h

theorem liteInv_delete (st : PyRedisLite) (k : String)
    (h : liteInv st = true) : liteInv (st.delete k).2 = true := by
  unfold PyRedisLite.delete
  cases hd : alookup st.data k with
  | none => simpa using h
  | some v =>
    by_cases he : (alookup st.expirations k).isSome
    · simpa [he] using liteInv_adel_both st k h
    · simp only [he, Bool.false_eq_true, if_false]
      rw [liteInv_iff] at h ⊢
      intro p hp
      have hnone : alookup st.expirations k = none := by
        cases hx : alookup st.expirations k with
        | none => rfl
        | some t => rw [hx] at he; simp at he
      have hne : p.1 ≠ k := alookup_eq_none_forall _ _ hnone p hp
      rw [alookup_adel]
      simpa [hne] using h p hp

theorem liteInv_incr (st : PyRedisLite) (k : String)
    (h : liteInv st = true) : liteInv (st.incr k).2 = true := by
  cases hd : alookup st.data k with
  | none =>
    have heq : st.incr k = ("1", ⟨aput st.data k "1", st.expirations⟩) := by
      simp [PyRedisLite.incr, hd]
    rw [heq]
    rw [liteInv_iff] at h ⊢
    intro p hp
    exact alookup_aput_isSome _ _ _ _ (Or.inl (h p hp))
  | some v =>
    cases hv : pyParseInt v with
    | none =>
      have heq : st.incr k = ("ERROR: Value is not an integer", st) := by
        simp [PyRedisLite.incr, hd, hv]
      rw [heq]
      exact h
    | some n =>
      have heq : st.incr k
          = (pyStr (n + 1), ⟨aput st.data k (pyStr (n + 1)), st.expirations⟩) := by
        simp [PyRedisLite.incr, hd, hv]
      rw [heq]
      rw [liteInv_iff] at h ⊢
      intro p hp
      exact alookup_aput_isSome _ _ _ _ (Or.inl (h p hp))

theorem liteInv_flushall (st : PyRedisLite) : liteInv (st.flushall).2 = true := by
  simp [PyRedisLite.flushall, liteInv]

theorem alookup_foldl_adel {α : Type} (ks : List String) (d : List (String × α)) (q : String)
    (hq : q ∉ ks) : alookup (ks.foldl adel d) q = alookup d q := by
  induction ks generalizing d with
  | nil => rfl
  | cons k rest ih =>
    have hqk : q ≠ k := fun hh => hq (by simp [hh])
    have hqr : q ∉ rest := fun hh => hq (by simp [hh])
    simp only [List.foldl_cons]
    rw [ih _ hqr, alookup_adel]
    simp [hqk]

theorem alookup_foldl_delIfPresent (ks : List String) (d : List (String × String)) (q : String)
    (hq : q ∉ ks) : alookup (ks.foldl delIfPresent d) q = alookup d q := by
  induction ks generalizing d with
  | nil => rfl
  | cons k rest ih =>
    have hqk : q ≠ k := fun hh => hq (by simp [hh])
    have hqr : q ∉ rest := fun hh => hq (by simp [hh])
    simp only [List.foldl_cons]
    rw [ih _ hqr]
    unfold delIfPresent
    by_cases hd : (alookup d k).isSome
    · rw [if_pos hd, alookup_adel]
      simp [hqk]
    · rw [if_neg hd]

theorem mem_foldl_adel {α : Type} (ks : List String) (d : List (String × α)) (p : String × α)
    (h : p ∈ ks.foldl adel d) : p ∈ d ∧ p.1 ∉ ks := by
  induction ks generalizing d with
  | nil => simpa using h
  | cons k rest ih =>
    simp only [List.foldl_cons] at h
    obtain ⟨hmem, hnot⟩ := ih _ h
    obtain ⟨hmem2, hne⟩ := (mem_adel _ _ _).mp hmem
    exact ⟨hmem2, by simp [hne, hnot]⟩

theorem liteInv_activeExpireOnce (st : PyRedisLite) (now : ℚ)
    (h : liteInv st = true) : liteInv (st.activeExpireOnce now) = true := by
  rw [liteInv_iff] at h
  unfold PyRedisLite.activeExpireOnce
  rw [liteInv_iff]
  intro p hp
  obtain ⟨hmem, hnot⟩ := mem_foldl_adel _ _ _ hp
  rw [alookup_foldl_delIfPresent _ _ _ hnot]
  exact h p hmem

theorem truncQ_nonneg (q : ℚ) (h : 0 ≤ q) : 0 ≤ truncQ q := by
  unfold truncQ ratFloor
  rw [if_neg (not_lt.mpr h)]
  exact Int.fdiv_nonneg (Rat.num_nonneg.mpr h) (by positivity)

/-- C4: for every key whose stored value is not parseable as a base-10
integer, `Incr` and `Decr` fail with the invalid-value condition (the
async engine raises `ValueError("value is not an integer or out of
range")`, the threaded engine replies `ERROR: Value is not an integer`)
and leave the store completely unchanged — the parse happens before any
mutation, so there is no partial mutation of value or expiry. -/
theorem claim4_incr_error_no_mutation (e : CacheEngine) (st : PyRedisLite)
    (k k2 v w : String)
    (h1 : alookup e.data k = some v) (hv : pyParseInt v = none)
    (h2 : alookup st.data k2 = some w) (hw : pyParseInt w = none) :
    (e.incr k).1 = .error "value is not an integer or out of range" ∧
    (e.incr k).2 = e ∧
    (e.decr k).1 = .error "value is not an integer or out of range" ∧
    (e.decr k).2 = e ∧
    (st.incr k2).1 = "ERROR: Value is not an integer" ∧
    (st.incr k2).2 = st := by
  refine ⟨?_, ?_, ?_, ?_, ?_, ?_⟩ <;>
    simp [CacheEngine.incr, CacheEngine.decr, PyRedisLite.incr, h1, hv, h2, hw]

/-- C4 witness: `incr`/`decr` on a key holding `"abc"` error out and
mutate nothing, in both engines. -/
theorem claim4_witness :
    pyParseInt "abc" = none ∧
    ((⟨[("k", "abc")], [], 0⟩ : CacheEngine).incr "k").2 = (⟨[("k", "abc")], [], 0⟩ : CacheEngine) ∧
    ((⟨[("k", "abc")], []⟩ : PyRedisLite).incr "k").1 = "ERROR: Value is not an integer" ∧
    ((⟨[("k", "abc")], []⟩ : PyRedisLite).incr "k").2 = (⟨[("k", "abc")], []⟩ : PyRedisLite) :=
  ⟨by decide,
   (claim4_incr_error_no_mutation ⟨[("k", "abc")], [], 0⟩ ⟨[("k", "abc")], []⟩
     "k" "k" "abc" "abc" (by decide) (by decide) (by decide) (by decide)).2.1,
   (claim4_incr_error_no_mutation ⟨[("k", "abc")], [], 0⟩ ⟨[("k", "abc")], []⟩
     "k" "k" "abc" "abc" (by decide) (by decide) (by decide) (by decide)).2.2.2.2.1,
   (claim4_incr_error_no_mutation ⟨[("k", "abc")], [], 0⟩ ⟨[("k", "abc")], []⟩
     "k" "k" "abc" "abc" (by decide) (by decide) (by decide) (by decide)).2.2.2.2.2⟩

/-- C5: `Save` followed by `Load` into a fresh store reproduces exactly
the same entry map and expiration structure, and — because the snapshot
stores absolute expiry timestamps — `Get` and `TTL` at any later
wall-clock time behave on the loaded store exactly as they would have on
the original, so TTL consumed between save and load is reflected and
keys whose expiry passed during the gap expire on access after load. -/
theorem claim5_save_load_roundtrip (e fresh : CacheEngine) (now : ℚ) (k : String) :
    (fresh.load (some e.save)).1 = none ∧
    (fresh.load (some e.save)).2.data = e.data ∧
    (fresh.load (some e.save)).2.heap = e.heap ∧
    ((fresh.load (some e.save)).2.get now k).1 = (e.get now k).1 ∧
    (fresh.load (some e.save)).2.ttl now k = e.ttl now k := by
  refine ⟨rfl, rfl, rfl, ?_, ?_⟩ <;>
    simp [CacheEngine.load, CacheEngine.save, CacheEngine.get, CacheEngine.ttl,
      CacheEngine.sweepNow]

/-- C8: `M` Incr calls on a fresh counter key yield exactly `M` as the
stored value, in both engines.  Each call's read-parse-add-write runs
entirely inside one critical section of the single store lock (no
`await` or release point inside), so the reachable interleavings of `M`
concurrent callers are exactly this `M`-fold sequential composition and
no increment is lost. -/
theorem claim8_concurrent_incr (k : String) (M : Nat) (hM : 0 < M) :
    alookup (incrRun k M ⟨[], [], 0⟩).data k = some (pyStr (M : Int)) ∧
    alookup (incrRunLite k M ⟨[], []⟩).data k = some (pyStr (M : Int)) := by
  obtain ⟨m, rfl⟩ : ∃ m, M = m + 1 := ⟨M - 1, by omega⟩
  constructor
  · simp only [incrRun]
    have h1 : (CacheEngine.incr ⟨[], [], 0⟩ k).2
        = (⟨aput [] k (pyStr 1), [], 0⟩ : CacheEngine) := by
      simp [CacheEngine.incr, alookup]
    rw [h1]
    have := incrRun_inv k m ⟨aput [] k (pyStr 1), [], 0⟩ 1 (by simp [alookup_aput])
    rw [show (1 : Int) + (m : Int) = ((m + 1 : Nat) : Int) by push_cast; ring] at this
    exact this
  · simp only [incrRunLite]
    have h1 : (PyRedisLite.incr ⟨[], []⟩ k).2
        = (⟨aput [] k "1", []⟩ : PyRedisLite) := by
      simp [PyRedisLite.incr, alookup]
    rw [h1]
    have := incrRunLite_inv k m ⟨aput [] k "1", []⟩ 1
      (by rw [show ("1" : String) = pyStr 1 from pyStr_one.symm]; simp [alookup_aput])
    rw [show (1 : Int) + (m : Int) = ((m + 1 : Nat) : Int) by push_cast; ring] at this
    exact this

/-- C8 witness: three increments of a fresh counter store `"3"`. -/
theorem claim8_witness :
    alookup (incrRun "c" 3 ⟨[], [], 0⟩).data "c" = some (pyStr 3) ∧
    alookup (incrRunLite "c" 3 ⟨[], []⟩).data "c" = some (pyStr 3) :=
  claim8_concurrent_incr "c" 3 (by decide)

/-- C10: in the threaded implementation every key in `expirations` is
also in `data`, and every operation — `set` (with any expiry argument,
including the exceptional path), `get`, `delete`, `exists`, `ttl`,
`incr`, `flushall` and one iteration of the `active_expire` sweep —
preserves this invariant. -/
theorem claim10_lite_invariant (st : PyRedisLite) (now : ℚ) (k v : String) (ex : PyEx)
    (h : liteInv st = true) :
    liteInv (st.set now k v ex).2 = true ∧
    liteInv (st.get now k).2 = true ∧
    liteInv (st.delete k).2 = true ∧
    liteInv (st.existsCmd now k).2 = true ∧
    liteInv (st.ttl now k).2 = true ∧
    liteInv (st.incr k).2 = true ∧
    liteInv (st.flushall).2 = true ∧
    liteInv (st.activeExpireOnce now) = true :=
  ⟨liteInv_set st now k v ex h, liteInv_get st now k h, liteInv_delete st k h,
   liteInv_existsCmd st now k h, liteInv_ttl st now k h, liteInv_incr st k h,
   liteInv_flushall st, liteInv_activeExpireOnce st now h⟩

/-- C10 witness: the invariant is preserved on a concrete state holding
an expiring key. -/
theorem claim10_witness :
    liteInv ⟨[("a", "x")], [("a", (5 : ℚ))]⟩ = true ∧
    liteInv ((⟨[("a", "x")], [("a", (5 : ℚ))]⟩ : PyRedisLite).delete "a").2 = true ∧
    liteInv ((⟨[("a", "x")], [("a", (5 : ℚ))]⟩ : PyRedisLite).activeExpireOnce 0) = true :=
  ⟨by decide,
   (claim10_lite_invariant ⟨[("a", "x")], [("a", (5 : ℚ))]⟩ 0 "a" "y" PyEx.noneVal
     (by decide)).2.2.1,
   (claim10_lite_invariant ⟨[("a", "x")], [("a", (5 : ℚ))]⟩ 0 "a" "y" PyEx.noneVal
     (by decide)).2.2.2.2.2.2.2⟩

/-- C9: a `Set` whose TTL argument is the integer `0` stores the value
with no expiry at all: `if expire:` / `if ex:` tests truthiness, `0` is
falsy, so no expiration record is enqueued; provided the key has no
pending record from before, a later `TTL` answers `-1` (not `-2`) and a
later `Get` at any time still returns the value — the key never
expires. -/
theorem claim9_zero_ttl_never_expires (e : CacheEngine) (st : PyRedisLite)
    (now t now2 t2 : ℚ) (k v k2 v2 : String)
    (hk : ∀ p ∈ e.heap, p.2 ≠ k)
    (hk2 : alookup st.expirations k2 = none) :
    (e.set now k v (some 0)).heap = e.heap ∧
    alookup (e.set now k v (some 0)).data k = some v ∧
    (e.set now k v (some 0)).ttl t k = -1 ∧
    ((e.set now k v (some 0)).get t k).1 = some v ∧
    (st.set now2 k2 v2 (PyEx.intVal 0)).2.expirations = st.expirations ∧
    ((st.set now2 k2 v2 (PyEx.intVal 0)).2.ttl t2 k2).1 = "-1" ∧
    ((st.set now2 k2 v2 (PyEx.intVal 0)).2.get t2 k2).1 = v2 := by
  have hset : e.set now k v (some 0) = { e with data := aput e.data k v } := by
    simp [CacheEngine.set]
  have hfind : e.heap.find? (fun p => p.2 == k) = none := by
    rw [List.find?_eq_none]
    intro p hp
    simpa using hk p hp
  have hlset : st.set now2 k2 v2 (PyEx.intVal 0)
      = (.ok "OK", ⟨aput st.data k2 v2, st.expirations⟩) := by
    simp [PyRedisLite.set, pyTruthy]
  refine ⟨by rw [hset], by rw [hset]; simp [alookup_aput], ?_, ?_, by rw [hlset], ?_, ?_⟩
  · rw [hset]
    simp [CacheEngine.ttl, alookup_aput, hfind]
  · rw [hset]
    show alookup (removeExpiredKeys t e.heap (aput e.data k v)).2 k = some v
    rw [removeExpiredKeys_alookup_of_not_mem t e.heap _ k hk]
    simp [alookup_aput]
  · rw [hlset]
    show (PyRedisLite.ttl ⟨aput st.data k2 v2, st.expirations⟩ t2 k2).1 = "-1"
    simp [PyRedisLite.ttl, alookup_aput, hk2]
  · rw [hlset]
    show (PyRedisLite.get ⟨aput st.data k2 v2, st.expirations⟩ t2 k2).1 = v2
    simp [PyRedisLite.get, alookup_aput, hk2]

/-- C9 witness: setting with TTL `0` on a key with no pending record
leaves the heap/expirations untouched and `TTL` answers `-1`. -/
theorem claim9_witness :
    (∀ p ∈ (⟨[], [((5 : ℚ), "other")], 0⟩ : CacheEngine).heap, p.2 ≠ "k") ∧
    ((CacheEngine.set ⟨[], [((5 : ℚ), "other")], 0⟩ 1 "k" "v" (some 0)).ttl 10 "k" = -1) ∧
    (((PyRedisLite.set ⟨[], [("other", (5 : ℚ))]⟩ 1 "k2" "v2" (PyEx.intVal 0)).2.ttl 10 "k2").1
      = "-1") :=
  ⟨by decide,
   (claim9_zero_ttl_never_expires ⟨[], [((5 : ℚ), "other")], 0⟩ ⟨[], [("other", (5 : ℚ))]⟩
     1 10 1 10 "k" "v" "k2" "v2" (by decide) (by decide)).2.2.1,
   (claim9_zero_ttl_never_expires ⟨[], [((5 : ℚ), "other")], 0⟩ ⟨[], [("other", (5 : ℚ))]⟩
     1 10 1 10 "k" "v" "k2" "v2" (by decide) (by decide)).2.2.2.2.2.1⟩

/-- C1 counterexample: with `k` holding `"v1"` under a pending record at
time 10, `SET k v2` without TTL at time 1 does not clear that record:
`GET k` at time 11 (after the old expiry) answers not-found instead of
`"v2"`, and `TTL k` at time 5 answers the old remaining time 5 instead
of `-1`.  This refutes the claim as stated. -/
theorem claim1_counterexample :
    ((CacheEngine.set ⟨[("k", "v1")], [((10 : ℚ), "k")], 0⟩ 1 "k" "v2" none).get 11 "k").1
      ≠ some "v2" ∧
    ((CacheEngine.set ⟨[("k", "v1")], [((10 : ℚ), "k")], 0⟩ 1 "k" "v2" none).get 11 "k").1
      = none ∧
    (CacheEngine.set ⟨[("k", "v1")], [((10 : ℚ), "k")], 0⟩ 1 "k" "v2" none).ttl 5 "k"
      ≠ -1 ∧
    (CacheEngine.set ⟨[("k", "v1")], [((10 : ℚ), "k")], 0⟩ 1 "k" "v2" none).ttl 5 "k"
      = 5 := by
  have h1 : (CacheEngine.set ⟨[("k", "v1")], [((10 : ℚ), "k")], 0⟩ 1 "k" "v2" none).ttl 5 "k"
      = truncQ ((10 : ℚ) - 5) := rfl
  have h2 : ((10 : ℚ) - 5) = 5 := by norm_num
  have h3 : truncQ (5 : ℚ) = 5 := by decide
  refine ⟨by decide, by decide, ?_, ?_⟩
  · rw [h1, h2, h3]; decide
  · rw [h1, h2, h3]

/-- C1 amended: a `Set` without TTL stores the value but does *not*
clear a previous expiry.  In the async engine the heap is left
untouched, so with a single pending record for the key a later `Get`
past that record's time treats the key as deleted; in the threaded
engine `expirations` is left untouched, so a later `Get` past the
recorded expiry answers `(nil)`.  `TTL` keeps reporting the old record
(see the counterexample) rather than `-1`. -/
theorem claim1_amended (dta : List (String × String)) (hp : List (ℚ × String))
    (t0 now later now2 later2 tExp : ℚ) (k v k2 v2 : String) (st : PyRedisLite)
    (h1 : t0 < later)
    (h2 : alookup st.expirations k2 = some tExp) (h3 : later2 > tExp) :
    (CacheEngine.set ⟨dta, hp, 0⟩ now k v none).heap = hp ∧
    alookup (CacheEngine.set ⟨dta, hp, 0⟩ now k v none).data k = some v ∧
    ((CacheEngine.set ⟨dta, [(t0, k)], 0⟩ now k v none).get later k).1 = none ∧
    (st.set now2 k2 v2 PyEx.noneVal).2.expirations = st.expirations ∧
    ((st.set now2 k2 v2 PyEx.noneVal).2.get later2 k2).1 = "(nil)" := by
  refine ⟨by simp [CacheEngine.set], by simp [CacheEngine.set, alookup_aput], ?_, ?_, ?_⟩
  · show (alookup (removeExpiredKeys later [(t0, k)] (aput dta k v)).2 k) = none
    simp [removeExpiredKeys, h1, alookup_aput, alookup_adel]
  · simp [PyRedisLite.set, pyTruthy]
  · have hlset : (st.set now2 k2 v2 PyEx.noneVal).2
        = (⟨aput st.data k2 v2, st.expirations⟩ : PyRedisLite) := by
      simp [PyRedisLite.set, pyTruthy]
    rw [hlset]
    simp [PyRedisLite.get, alookup_aput, h2, h3]

/-- C1 amended witness: concrete instantiation with a stale record at
time 3 read back at time 4 (async) and an expiry at time 5 read back at
time 6 (threaded). -/
theorem claim1_witness :
    ((3 : ℚ) < 4) ∧
    ((CacheEngine.set ⟨[], [((3 : ℚ), "k")], 0⟩ 0 "k" "v" none).get 4 "k").1 = none ∧
    (((PyRedisLite.set ⟨[("a", "b")], [("a", (5 : ℚ))]⟩ 0 "a" "c" PyEx.noneVal).2.get 6 "a").1
      = "(nil)") :=
  ⟨by decide,
   (claim1_amended [] [((3 : ℚ), "k")] 3 0 4 0 6 5 "k" "v" "a" "c"
     ⟨[("a", "b")], [("a", (5 : ℚ))]⟩ (by decide) (by decide) (by decide)).2.2.1,
   (claim1_amended [] [((3 : ℚ), "k")] 3 0 4 0 6 5 "k" "v" "a" "c"
     ⟨[("a", "b")], [("a", (5 : ℚ))]⟩ (by decide) (by decide) (by decide)).2.2.2.2⟩

/-- C2 counterexample: the data holds `k = "v2"` whose current record is
`(13, k)` (a later re-set), while a stale record `(5, k)` is still
queued.  Draining at time 6 pops the stale record and deletes the entry
anyway — the sweep does not check that the key still maps to the same
logical entry, refuting the claim. -/
theorem claim2_counterexample :
    (removeExpiredKeys 6 [((5 : ℚ), "k"), ((13 : ℚ), "k")] [("k", "v2")]).1
      = [((13 : ℚ), "k")] ∧
    (removeExpiredKeys 6 [((5 : ℚ), "k"), ((13 : ℚ), "k")] [("k", "v2")]).2 = [] ∧
    alookup (removeExpiredKeys 6 [((5 : ℚ), "k"), ((13 : ℚ), "k")] [("k", "v2")]).2 "k"
      ≠ some "v2" := by
  refine ⟨?_, ?_, ?_⟩ <;> decide

/-- C2 amended: a drained record whose key is *absent* from the store is
discarded without any side effect, but a drained record whose key is
*present* deletes the entry unconditionally — redefinition (overwrite
with a later expiry or a cleared expiry) is not checked. -/
theorem claim2_amended (now t : ℚ) (k : String) (rest : List (ℚ × String))
    (d : List (String × String)) (h : t < now) :
    (alookup d k = none →
      removeExpiredKeys now ((t, k) :: rest) d = removeExpiredKeys now rest d) ∧
    (∀ v, alookup d k = some v →
      removeExpiredKeys now ((t, k) :: rest) d = removeExpiredKeys now rest (adel d k)) := by
  constructor
  · intro h0
    simp [removeExpiredKeys, h, h0]
  · intro v hv
    simp [removeExpiredKeys, h, hv]

/-- C2 amended witness: concrete drained record at time 5 processed at
time 6, over an empty store (absent key) — discarded without effect. -/
theorem claim2_witness :
    ((5 : ℚ) < 6) ∧
    (alookup ([] : List (String × String)) "k" = none →
      removeExpiredKeys 6 [((5 : ℚ), "k")] [] = removeExpiredKeys 6 [] []) :=
  ⟨by decide, (claim2_amended 6 5 "k" [] [] (by decide)).1⟩

/-- C3 counterexample: in the async engine `ttl` never checks expiry
before computing the remaining time: with `k` present and a record at
time 5, `TTL` at time 10 answers `-5` — a negative value in the
present-with-expiry branch, and the expired entry is not removed nor
reported as `-2`.  This refutes the never-negative part of the claim. -/
theorem claim3_counterexample :
    CacheEngine.ttl ⟨[("k", "v")], [((5 : ℚ), "k")], 0⟩ 10 "k" = -5 ∧
    CacheEngine.ttl ⟨[("k", "v")], [((5 : ℚ), "k")], 0⟩ 10 "k" < 0 := by
  have h1 : CacheEngine.ttl ⟨[("k", "v")], [((5 : ℚ), "k")], 0⟩ 10 "k"
      = truncQ ((5 : ℚ) - 10) := rfl
  have h2 : ((5 : ℚ) - 10) = -5 := by norm_num
  have h3 : truncQ (-5 : ℚ) = -5 := by decide
  rw [h1, h2, h3]
  exact ⟨rfl, by decide⟩

/-- C3 amended: the threaded `ttl` satisfies the claim in full: `-2`
when absent; when present and expired, the entry is removed and `-2`
returned; when present and not yet expired, the reply is the truncated
remaining time, which is never negative because the expiry check comes
first; `-1` when present with no expiration entry.  The async `ttl`
instead returns `-2`/`-1`/`int(expire_at - now)` of the first matching
heap record *without* any expiry check, so its present-with-record
branch can be negative (see the counterexample). -/
theorem claim3_amended (st : PyRedisLite) (now tExp : ℚ) (k v : String)
    (h1 : alookup st.data k = some v) (h2 : alookup st.expirations k = some tExp)
    (h3 : ¬ now > tExp) :
    (st.ttl now k).1 = pyStr (truncQ (tExp - now)) ∧
    0 ≤ truncQ (tExp - now) ∧
    (st.ttl now k).2 = st ∧
    (∀ (st2 : PyRedisLite) (m t3 : ℚ) (k3 v3 : String),
      alookup st2.data k3 = some v3 → alookup st2.expirations k3 = some t3 → m > t3 →
      (st2.ttl m k3).1 = "-2" ∧ alookup (st2.ttl m k3).2.data k3 = none) ∧
    (∀ (st3 : PyRedisLite) (m : ℚ) (k4 : String),
      alookup st3.data k4 = none → (st3.ttl m k4).1 = "-2") ∧
    (∀ (st4 : PyRedisLite) (m : ℚ) (k5 v5 : String),
      alookup st4.data k5 = some v5 → alookup st4.expirations k5 = none →
      (st4.ttl m k5).1 = "-1") ∧
    (∀ (e : CacheEngine) (m t6 : ℚ) (k6 v6 : String),
      alookup e.data k6 = some v6 → e.heap.find? (fun p => p.2 == k6) = some (t6, k6) →
      e.ttl m k6 = truncQ (t6 - m)) := by
  refine ⟨?_, ?_, ?_, ?_, ?_, ?_, ?_⟩
  · simp [PyRedisLite.ttl, h1, h2, h3]
  · apply truncQ_nonneg
    have := not_lt.mp h3
    linarith
  · simp [PyRedisLite.ttl, h1, h2, h3]
  · intro st2 m t3 k3 v3 ha hb hc
    constructor
    · simp [PyRedisLite.ttl, ha, hb, hc]
    · simp [PyRedisLite.ttl, ha, hb, hc, alookup_adel]
  · intro st3 m k4 ha
    simp [PyRedisLite.ttl, ha]
  · intro st4 m k5 v5 ha hb
    simp [PyRedisLite.ttl, ha, hb]
  · intro e m t6 k6 v6 ha hb
    simp [CacheEngine.ttl, ha, hb]

/-- C3 amended witness: a key expiring at time 5 queried at time 5
(`now > tExp` is false, remaining `0`). -/
theorem claim3_witness :
    (¬ (5 : ℚ) > 5) ∧
    ((PyRedisLite.ttl ⟨[("k", "v")], [("k", (5 : ℚ))]⟩ 5 "k").1
      = pyStr (truncQ ((5 : ℚ) - 5))) ∧
    0 ≤ truncQ ((5 : ℚ) - 5) :=
  ⟨by decide,
   (claim3_amended ⟨[("k", "v")], [("k", (5 : ℚ))]⟩ 5 5 "k" "v"
     (by decide) (by decide) (by decide)).1,
   (claim3_amended ⟨[("k", "v")], [("k", (5 : ℚ))]⟩ 5 5 "k" "v"
     (by decide) (by decide) (by decide)).2.1⟩

/-- C6 counterexample: loading a snapshot whose first pickle frame (the
entry map) deserializes but whose second frame (the heap) is truncated
leaves the store in a state that is neither the full snapshot nor the
pre-call state: the new entry map is installed next to the old
expiration heap.  The failure does propagate (fatal), but partial state
is adopted, refuting the claim. -/
theorem claim6_counterexample :
    (CacheEngine.load ⟨[("old", "ov")], [((5 : ℚ), "old")], 0⟩
       (some ⟨.ok [("new", "nv")], .error "truncated stream"⟩)).1
      = some "truncated stream" ∧
    (CacheEngine.load ⟨[("old", "ov")], [((5 : ℚ), "old")], 0⟩
       (some ⟨.ok [("new", "nv")], .error "truncated stream"⟩)).2
      ≠ (⟨[("old", "ov")], [((5 : ℚ), "old")], 0⟩ : CacheEngine) ∧
    (CacheEngine.load ⟨[("old", "ov")], [((5 : ℚ), "old")], 0⟩
       (some ⟨.ok [("new", "nv")], .error "truncated stream"⟩)).2.data
      = [("new", "nv")] ∧
    (CacheEngine.load ⟨[("old", "ov")], [((5 : ℚ), "old")], 0⟩
       (some ⟨.ok [("new", "nv")], .error "truncated stream"⟩)).2.heap
      = [((5 : ℚ), "old")] := by
  refine ⟨rfl, ?_, rfl, rfl⟩
  decide

/-- C6 amended: a missing file leaves the store untouched with no error;
a failure of the *first* deserialization step propagates with the store
exactly as before; but a failure of the *second* step propagates with
the new entry map already installed over the old expiration structure —
the no-partial-state guarantee only holds up to the first frame. -/
theorem claim6_amended (e : CacheEngine) (m : String) (d : List (String × String))
    (hf : Except String (List (ℚ × String))) :
    e.load none = (none, e) ∧
    e.load (some ⟨.error m, hf⟩) = (some m, e) ∧
    e.load (some ⟨.ok d, .error m⟩) = (some m, { e with data := d }) :=
  ⟨rfl, rfl, rfl⟩

/-- C7 counterexample: in the threaded server, `SET k v EX abc` raises
`ValueError` inside `db.set` (after the value has already been stored);
`handle_client` catches it, replies `ERROR: <message>` — and then
`break`s, closing the connection.  The connection does not stay open,
refuting that part of the claim. -/
theorem claim7_counterexample :
    (liteHandleStep ⟨[], []⟩ 0 "SET k v EX abc").2.2 = false ∧
    (liteHandleStep ⟨[], []⟩ 0 "SET k v EX abc").1
      = some "ERROR: invalid literal for int() with base 10: \x27abc\x27\n" ∧
    (liteHandleStep ⟨[], []⟩ 0 "SET k v EX abc").2.1.data = [("k", "v")] := by
  refine ⟨?_, ?_, ?_⟩ <;> decide

/-- C7 amended: any exception escaping command execution is caught and
turned into an `ERROR: <message>` reply in both servers, and neither
crashes; the async server keeps the connection open afterwards, but the
threaded server sends the error reply and then closes the connection. -/
theorem claim7_amended (e : CacheEngine) (now : ℚ) (input c : String)
    (args : List String) (msg : String) (st st2 : PyRedisLite) (now2 : ℚ)
    (input2 c2 : String) (args2 : List String) (m2 : String)
    (h1 : pySplitWS input = c :: args)
    (h2 : CommandParser.dispatch e now (pyUpper c) args = .error msg)
    (h3 : pySplitWS input2 = c2 :: args2)
    (h4 : liteDispatch st now2 (pyUpper c2) args2 = (.error m2, st2)) :
    asyncHandleStep e now input = (some ("ERROR: " ++ msg ++ "\r\n"), e, true) ∧
    liteHandleStep st now2 input2 = (some ("ERROR: " ++ m2 ++ "\n"), st2, false) := by
  constructor
  · have hne : input ≠ "" := by
      intro hempty
      rw [hempty] at h1
      rw [show pySplitWS "" = [] from rfl] at h1
      exact (List.cons_ne_nil c args h1.symm).elim
    simp [asyncHandleStep, hne, CommandParser.parse, h1, h2]
  · simp [liteHandleStep, h3, h4]

/-- C7 amended witness: `INCR` on a non-integer value in the async
server is answered with an error reply on an open connection, and the
`SET ... EX abc` exception in the threaded server is answered with an
error reply before the connection closes. -/
theorem claim7_witness :
    asyncHandleStep ⟨[("k", "abc")], [], 0⟩ 0 "INCR k"
      = (some ("ERROR: " ++ "value is not an integer or out of range" ++ "\r\n"),
         ⟨[("k", "abc")], [], 0⟩, true) ∧
    liteHandleStep ⟨[], []⟩ 0 "SET k v EX abc"
      = (some ("ERROR: " ++ "invalid literal for int() with base 10: \x27abc\x27" ++ "\n"),
         ⟨[("k", "v")], []⟩, false) :=
  claim7_amended ⟨[("k", "abc")], [], 0⟩ 0 "INCR k" "INCR" ["k"]
    "value is not an integer or out of range" ⟨[], []⟩ ⟨[("k", "v")], []⟩ 0
    "SET k v EX abc" "SET" ["k", "v", "EX", "abc"]
    "invalid literal for int() with base 10: \x27abc\x27"
    (by decide) (by rfl) (by decide) (by rfl)
